import Mathlib

/-!
ProyectoGF.c : static partition of a transaction batch over POSIX threads

Shallow embedding of `src/ProyectoGF.c`.

* C `int` values are `Int`; a product that the C code computes in `int` is
  reduced to the 32-bit two's-complement range by `wrap32`.
* C integer division and remainder truncate toward zero: `Int.tdiv`, `Int.tmod`.
* The global arrays are total functions from the index to the cell.
* `double` values are exact rationals: `3.14` is `157/50`, `0.00001` is
  `1/100000`, and no rounding is modelled.
* A counted loop `for (int i = a; i < b; i++)` whose body does not assign `i`
  runs its body at `a, a+1, ..., b-1`, that is `(b - a).toNat` times.
-/

namespace ProyectoGF

/-! ## Constants and machine arithmetic -/

/-- Batch size, `#define NUM_TRANSACCIONES 20`. -/
def NUM_TRANSACCIONES : Int := 20

/-- Worker count, `#define NUM_HILOS 4`. -/
def NUM_HILOS : Int := 4

/-- Reduction of an integer to the 32-bit two's-complement range. -/
def wrap32 (x : Int) : Int := (x + 2147483648) % 4294967296 - 2147483648

/-- Product of two C `int` values. -/
def mul32 (a b : Int) : Int := wrap32 (a * b)

/-- Counted loop: `n` iterations of `cuerpo`, the index starting at `i`. -/
def forDesde {σ : Type} (cuerpo : Int → σ → σ) : Nat → Int → σ → σ
  | 0, _, s => s
  | n + 1, i, s => forDesde cuerpo n (i + 1) (cuerpo i s)

/-- Loop `for (int i = inicio; i < fin; i++) cuerpo`. -/
def forRango {σ : Type} (cuerpo : Int → σ → σ) (inicio fin : Int) (s : σ) : σ :=
  forDesde cuerpo (fin - inicio).toNat inicio s

/-! ## Range of a worker (lines 94-101), for a batch size `N` and `M` workers -/

/-- First index of worker `id_hilo`: `(id_hilo - 1) * (N / M)`. The products
and sums of the range computation are not reduced to 32 bits: for a batch
size in the `int` range and a worker of `1..M` they stay in that range
(`rango_en_int`). -/
def rango_inicio (N M id_hilo : Int) : Int := (id_hilo - 1) * (N.tdiv M)

/-- End (exclusive) of the range of worker `id_hilo`: `inicio + N / M`, and `N`
for the last worker. -/
def rango_fin (N M id_hilo : Int) : Int :=
  if id_hilo = M then N else rango_inicio N M id_hilo + N.tdiv M

/-! ## Global state -/

/-- The four global arrays, and a history of the routines run by the workers:
the pair `(id_hilo, i)` is appended by the loop body of worker `id_hilo` when
it runs the simulated-work routine for slot `i`. The routines themselves do
not touch the history; what they store is read off `transaccion_resultado`. -/
structure Estado where
  transaccion_id : Int → Int
  transaccion_tipo : Int → Int
  transaccion_duracion_ms : Int → Int
  transaccion_resultado : Int → ℚ
  escrituras : List (Int × Int)

/-- Store `transaccion_resultado[indice] = v`. -/
def escribir_resultado (s : Estado) (indice : Int) (v : ℚ) : Estado :=
  { s with transaccion_resultado :=
      fun j => if j = indice then v else s.transaccion_resultado j }

/-- Argument of the call `usleep(transaccion_duracion_ms[indice] * 1000)`. -/
def usleep_arg (s : Estado) (indice : Int) : Int :=
  mul32 (s.transaccion_duracion_ms indice) 1000

/-! ## Simulated work (lines 38-79) -/

/-- Lines 38-43: `transaccion_resultado[indice] = id_real * 3.14`. -/
def simular_consulta_bd (indice : Int) (s : Estado) : Estado :=
  let id_real := s.transaccion_id indice
  escribir_resultado s indice ((id_real : ℚ) * (157 / 50))

/-- Lines 53-58: `transaccion_resultado[indice] = id_real * 100`, the product
taken in `int`. -/
def simular_procesar_archivo (indice : Int) (s : Estado) : Estado :=
  let id_real := s.transaccion_id indice
  escribir_resultado s indice ((mul32 id_real 100 : Int) : ℚ)

/-- Body of the loop of lines 75-77: `resultado += (id_real * i) * 0.00001`. -/
def calculo_cuerpo (id_real : Int) (i : Int) (resultado : ℚ) : ℚ :=
  resultado + ((mul32 id_real i : Int) : ℚ) * (1 / 100000)

/-- Lines 68-79. -/
def simular_calculo (indice : Int) (s : Estado) : Estado :=
  let id_real := s.transaccion_id indice
  let resultado := forRango (calculo_cuerpo id_real) 0 100000 0
  escribir_resultado s indice resultado

/-! ## Worker (lines 93-131) -/

/-- Record in the history that worker `id_hilo` stored into slot `i`. -/
def anotar (id_hilo i : Int) (s : Estado) : Estado :=
  { s with escrituras := s.escrituras ++ [(id_hilo, i)] }

/-- Body of the loop of lines 105-127: the `switch` on `transaccion_tipo[i]`,
which has no `default` case. -/
def procesar_cuerpo (id_hilo : Int) (i : Int) (s : Estado) : Estado :=
  if s.transaccion_tipo i = 0 then anotar id_hilo i (simular_consulta_bd i s)
  else if s.transaccion_tipo i = 1 then anotar id_hilo i (simular_procesar_archivo i s)
  else if s.transaccion_tipo i = 2 then anotar id_hilo i (simular_calculo i s)
  else s

/-- Lines 93-131, for the worker whose argument is `id_hilo`. -/
def procesar_transacciones (id_hilo : Int) (s : Estado) : Estado :=
  let inicio := rango_inicio NUM_TRANSACCIONES NUM_HILOS id_hilo
  let fin := rango_fin NUM_TRANSACCIONES NUM_HILOS id_hilo
  forRango (procesar_cuerpo id_hilo) inicio fin s

/-- The workers of the list run to completion one after the other. -/
def ejecutar_hilos (orden : List Int) (s : Estado) : Estado :=
  orden.foldl (fun acc id_hilo => procesar_transacciones id_hilo acc) s

/-! ## Batch generation (lines 144-154) -/

/-- Body of the loop of lines 147-153. `rnd c` is the value of the `c`-th call
of `rand()` after `srand`; the second component counts the calls made. -/
def inicializar_cuerpo (rnd : Nat → Int) (i : Int) (p : Estado × Nat) : Estado × Nat :=
  let s := p.1
  let c := p.2
  ({ transaccion_id := fun j => if j = i then i + 1 else s.transaccion_id j,
     transaccion_tipo := fun j => if j = i then (rnd c).tmod 3 else s.transaccion_tipo j,
     transaccion_duracion_ms :=
       fun j => if j = i then 100 + (rnd (c + 1)).tmod 400 else s.transaccion_duracion_ms j,
     transaccion_resultado := fun j => if j = i then 0 else s.transaccion_resultado j,
     escrituras := s.escrituras },
   c + 2)

/-- Lines 144-154, from the global state `s`. -/
def inicializar_transacciones (rnd : Nat → Int) (s : Estado) : Estado :=
  (forRango (inicializar_cuerpo rnd) 0 NUM_TRANSACCIONES (s, 0)).1

/-- Global state at program start: zero-initialised arrays, no store yet. -/
def estado_inicial : Estado :=
  { transaccion_id := fun _ => 0,
    transaccion_tipo := fun _ => 0,
    transaccion_duracion_ms := fun _ => 0,
    transaccion_resultado := fun _ => 0,
    escrituras := [] }

/-! ## Orchestration (lines 194-252) -/

/-- Observable steps of `main` after the batch is generated: `crear i` is the
call of `pthread_create` for `hilos[i]` (whatever it returns), `perror` the
error report of line 221, `join i` the call of `pthread_join` for `hilos[i]`,
`resumen` the final result summary of lines 238-250. -/
inductive Evento where
  | crear (i : Int)
  | perror
  | join (i : Int)
  | resumen
  deriving DecidableEq

/-- Loop of lines 218-224 with `n` iterations left, index `i` and the steps
taken so far. `pthread_create i` is the code the `i`-th launch returns. The
result is `Except.error` when the loop leaves `main` through `return 1`. -/
def lanzar_hilos (pthread_create : Int → Int) :
    Nat → Int → List Evento → Except (List Evento) (List Evento)
  | 0, _, t => Except.ok t
  | n + 1, i, t =>
    if pthread_create i ≠ 0 then Except.error (t ++ [Evento.crear i, Evento.perror])
    else lanzar_hilos pthread_create n (i + 1) (t ++ [Evento.crear i])

/-- Loop of lines 227-229. -/
def esperar_hilos (t : List Evento) : List Evento :=
  forRango (fun i acc => acc ++ [Evento.join i]) 0 NUM_HILOS t

/-- Lines 194-252: exit code of `main` and the steps it takes. -/
def main (pthread_create : Int → Int) : Int × List Evento :=
  match lanzar_hilos pthread_create NUM_HILOS.toNat 0 [] with
  | Except.error t => (1, t)
  | Except.ok t => (0, esperar_hilos t ++ [Evento.resumen])

/-! ## Auxiliary definitions for the proofs -/

/-- Value left in a result slot by the `switch` of lines 111-121 for a
transaction of kind `tipo` and id `id_real`, the slot holding `previo` before. -/
def valor_resultado (tipo id_real : Int) (previo : ℚ) : ℚ :=
  if tipo = 0 then (id_real : ℚ) * (157 / 50)
  else if tipo = 1 then ((mul32 id_real 100 : Int) : ℚ)
  else if tipo = 2 then forRango (calculo_cuerpo id_real) 0 100000 0
  else previo

/-- The kind stored in slot `i` is one of the three cases of the `switch`. -/
def tipo_valido (s : Estado) (i : Int) : Prop :=
  s.transaccion_tipo i = 0 ∨ s.transaccion_tipo i = 1 ∨ s.transaccion_tipo i = 2

instance (s : Estado) (i : Int) : Decidable (tipo_valido s i) := by
  unfold tipo_valido
  infer_instance

/-- Index `j` is in the range of worker `id_hilo` of the program. -/
def en_rango (id_hilo j : Int) : Prop :=
  rango_inicio NUM_TRANSACCIONES NUM_HILOS id_hilo ≤ j ∧
    j < rango_fin NUM_TRANSACCIONES NUM_HILOS id_hilo

instance (id_hilo j : Int) : Decidable (en_rango id_hilo j) := by
  unfold en_rango
  infer_instance

/-- Worker ids handed out by the loop of lines 218-224: `id_hilos[i] = i + 1`. -/
def id_hilos : List Int := (List.range NUM_HILOS.toNat).map (fun i : Nat => (i : Int) + 1)

/-! ## Range lemmas -/

theorem base_mul_le {N M : Int} (hM : 0 < M) : (N / M) * M ≤ N :=
  Int.ediv_mul_le N (ne_of_gt hM)

theorem lt_base_succ_mul {N M : Int} (hM : 0 < M) : N < (N / M + 1) * M := by
  have h := Int.lt_ediv_add_one_mul_self N hM
  linarith

theorem base_nonneg {N M : Int} (hN : 0 ≤ N) (hM : 0 < M) : 0 ≤ N / M :=
  Int.ediv_nonneg hN (le_of_lt hM)

theorem base_pos {N M : Int} (hM : 0 < M) (hMN : M ≤ N) : 0 < N / M := by
  have h : (1 : Int) ≤ N / M := Int.le_ediv_of_mul_le hM (by simpa using hMN)
  omega

/-- Range of a worker other than the last. -/
theorem rango_no_ultimo {N M k : Int} (hN : 0 ≤ N) (hM : 0 < M) (hk : k ≠ M) :
    rango_inicio N M k = (k - 1) * (N / M) ∧ rango_fin N M k = k * (N / M) := by
  unfold rango_fin rango_inicio
  rw [Int.tdiv_eq_ediv hN (le_of_lt hM), if_neg hk]
  constructor
  · rfl
  · ring

/-- Range of the last worker. -/
theorem rango_ultimo {N M : Int} (hN : 0 ≤ N) (hM : 0 < M) :
    rango_inicio N M M = (M - 1) * (N / M) ∧ rango_fin N M M = N := by
  unfold rango_fin rango_inicio
  rw [Int.tdiv_eq_ediv hN (le_of_lt hM), if_pos rfl]
  exact ⟨rfl, rfl⟩

/-- The start of the last range is at most `N`. -/
theorem inicio_ultimo_le {N M : Int} (hN : 0 ≤ N) (hM : 0 < M) : (M - 1) * (N / M) ≤ N := by
  have h1 := base_mul_le (N := N) hM
  have h2 := base_nonneg hN hM
  nlinarith

/-- Every range is well formed and inside `[0, N)`. -/
theorem rango_dentro {N M k : Int} (hN : 0 ≤ N) (hM : 0 < M) (h1 : 1 ≤ k) (hk : k ≤ M) :
    0 ≤ rango_inicio N M k ∧ rango_inicio N M k ≤ rango_fin N M k ∧ rango_fin N M k ≤ N := by
  have hb := base_nonneg hN hM
  have hl := base_mul_le (N := N) hM
  by_cases hkM : k = M
  · subst hkM
    obtain ⟨hi, hf⟩ := rango_ultimo hN hM
    rw [hi, hf]
    refine ⟨by nlinarith, inicio_ultimo_le hN hM, le_refl _⟩
  · obtain ⟨hi, hf⟩ := rango_no_ultimo hN hM hkM
    rw [hi, hf]
    have hk' : k ≤ M - 1 := by omega
    refine ⟨by nlinarith, by nlinarith, ?_⟩
    have : k * (N / M) ≤ M * (N / M) := by nlinarith
    nlinarith

/-- For a batch size in the `int` range and a worker of `1..M`, neither the
product of line 95 nor the sum of line 96 overflows. -/
theorem rango_en_int {N M k : Int} (hN : 0 ≤ N) (hN32 : N < 2147483648) (hM : 0 < M)
    (h1 : 1 ≤ k) (hk : k ≤ M) :
    wrap32 ((k - 1) * N.tdiv M) = rango_inicio N M k ∧
    wrap32 (rango_inicio N M k + N.tdiv M) = rango_inicio N M k + N.tdiv M := by
  have hb := base_nonneg hN hM
  have hl := base_mul_le (N := N) hM
  unfold rango_inicio
  rw [Int.tdiv_eq_ediv hN (le_of_lt hM)]
  have e0 : 0 ≤ (k - 1) * (N / M) := mul_nonneg (by omega) hb
  have e1 : (k - 1) * (N / M) + N / M = k * (N / M) := by ring
  have e2 : k * (N / M) ≤ M * (N / M) := mul_le_mul_of_nonneg_right hk hb
  have e3 : M * (N / M) = N / M * M := mul_comm _ _
  unfold wrap32
  constructor <;> omega

/-- An earlier worker ends before a later one starts. -/
theorem rango_orden {N M k₁ k₂ : Int} (hN : 0 ≤ N) (hM : 0 < M)
    (h12 : k₁ < k₂) (h2 : k₂ ≤ M) :
    rango_fin N M k₁ ≤ rango_inicio N M k₂ := by
  have hb := base_nonneg hN hM
  have hk1 : k₁ ≠ M := by omega
  obtain ⟨-, hf⟩ := rango_no_ultimo hN hM hk1
  have hi : rango_inicio N M k₂ = (k₂ - 1) * (N / M) := by
    unfold rango_inicio
    rw [Int.tdiv_eq_ediv hN (le_of_lt hM)]
  rw [hf, hi]
  have : k₁ ≤ k₂ - 1 := by omega
  nlinarith

/-- Two workers whose ranges share an index are the same worker. -/
theorem rango_unico {N M k₁ k₂ i : Int} (hN : 0 ≤ N) (hM : 0 < M)
    (h1 : k₁ ≤ M) (h2 : k₂ ≤ M)
    (hi1 : rango_inicio N M k₁ ≤ i ∧ i < rango_fin N M k₁)
    (hi2 : rango_inicio N M k₂ ≤ i ∧ i < rango_fin N M k₂) : k₁ = k₂ := by
  rcases lt_trichotomy k₁ k₂ with h | h | h
  · have := rango_orden hN hM h h2
    omega
  · exact h
  · have := rango_orden hN hM h h1
    omega

/-- Every index of `[0, N)` lies in the range of some worker, when `0 < N / M`. -/
theorem rango_cubre {N M i : Int} (hM : 0 < M) (hb : 0 < N / M)
    (hN : 0 ≤ N) (h0 : 0 ≤ i) (hi : i < N) :
    ∃ k, 1 ≤ k ∧ k ≤ M ∧ rango_inicio N M k ≤ i ∧ i < rango_fin N M k := by
  have hq0 : 0 ≤ i / (N / M) := Int.ediv_nonneg h0 (le_of_lt hb)
  have hq1 := base_mul_le (N := i) hb
  have hq2 := lt_base_succ_mul (N := i) hb
  by_cases hq : i / (N / M) + 1 < M
  · refine ⟨i / (N / M) + 1, by omega, by omega, ?_⟩
    obtain ⟨h1, h2⟩ := rango_no_ultimo (k := i / (N / M) + 1) hN hM (by omega)
    rw [h1, h2]
    constructor
    · have : i / (N / M) + 1 - 1 = i / (N / M) := by ring
      rw [this]; exact hq1
    · exact hq2
  · refine ⟨M, by omega, le_refl _, ?_⟩
    obtain ⟨h1, h2⟩ := rango_ultimo hN hM
    rw [h1, h2]
    refine ⟨?_, hi⟩
    have : M - 1 ≤ i / (N / M) := by omega
    nlinarith

/-! ## Machine arithmetic lemmas -/

/-- A value of the `int` range is not changed by the reduction. -/
theorem wrap32_eq {x : Int} (h1 : -2147483648 ≤ x) (h2 : x < 2147483648) : wrap32 x = x := by
  unfold wrap32
  omega

/-- The truncated remainder of a non-negative value by a positive one. -/
theorem tmod_rango {r m : Int} (hr : 0 ≤ r) (hm : 0 < m) : 0 ≤ r.tmod m ∧ r.tmod m < m :=
  ⟨Int.tmod_nonneg m hr, Int.tmod_lt_of_pos r hm⟩

/-! ## Batch generation lemmas -/

/-- State after `n` iterations of the generation loop started at index `i₀`
with `c` calls of `rand()` already made: inside `[i₀, i₀ + n)` every slot holds
the generated values, outside nothing changes. -/
theorem inicializar_desde (rnd : Nat → Int) :
    ∀ (n : Nat) (i₀ : Int) (s : Estado) (c : Nat) (j : Int),
      (i₀ ≤ j ∧ j < i₀ + n →
        (forDesde (inicializar_cuerpo rnd) n i₀ (s, c)).1.transaccion_id j = j + 1 ∧
        (forDesde (inicializar_cuerpo rnd) n i₀ (s, c)).1.transaccion_tipo j
          = (rnd (c + 2 * (j - i₀).toNat)).tmod 3 ∧
        (forDesde (inicializar_cuerpo rnd) n i₀ (s, c)).1.transaccion_duracion_ms j
          = 100 + (rnd (c + 2 * (j - i₀).toNat + 1)).tmod 400 ∧
        (forDesde (inicializar_cuerpo rnd) n i₀ (s, c)).1.transaccion_resultado j = 0) ∧
      (¬ (i₀ ≤ j ∧ j < i₀ + n) →
        (forDesde (inicializar_cuerpo rnd) n i₀ (s, c)).1.transaccion_id j = s.transaccion_id j ∧
        (forDesde (inicializar_cuerpo rnd) n i₀ (s, c)).1.transaccion_tipo j
          = s.transaccion_tipo j ∧
        (forDesde (inicializar_cuerpo rnd) n i₀ (s, c)).1.transaccion_duracion_ms j
          = s.transaccion_duracion_ms j ∧
        (forDesde (inicializar_cuerpo rnd) n i₀ (s, c)).1.transaccion_resultado j
          = s.transaccion_resultado j) := by
  intro n
  induction n with
  | zero =>
    intro i₀ s c j
    refine ⟨fun h => ?_, fun _ => ⟨rfl, rfl, rfl, rfl⟩⟩
    simp at h
    omega
  | succ n ih =>
    intro i₀ s c j
    have hstep : forDesde (inicializar_cuerpo rnd) (n + 1) i₀ (s, c)
        = forDesde (inicializar_cuerpo rnd) n (i₀ + 1) (inicializar_cuerpo rnd i₀ (s, c)) := rfl
    rw [hstep]
    have hc : inicializar_cuerpo rnd i₀ (s, c)
        = ((inicializar_cuerpo rnd i₀ (s, c)).1, c + 2) := rfl
    rw [hc]
    obtain ⟨hin, hout⟩ := ih (i₀ + 1) (inicializar_cuerpo rnd i₀ (s, c)).1 (c + 2) j
    constructor
    · intro hj
      by_cases hji : j = i₀
      · obtain ⟨h1, h2, h3, h4⟩ := hout (by omega)
        rw [h1, h2, h3, h4]
        subst hji
        simp [inicializar_cuerpo]
      · obtain ⟨h1, h2, h3, h4⟩ := hin ⟨by omega, by push_cast at hj ⊢; omega⟩
        have e : c + 2 + 2 * (j - (i₀ + 1)).toNat = c + 2 * (j - i₀).toNat := by omega
        rw [e] at h2 h3
        exact ⟨h1, h2, h3, h4⟩
    · intro hj
      have hne : j ≠ i₀ := by
        intro h
        apply hj
        push_cast
        omega
      obtain ⟨h1, h2, h3, h4⟩ := hout (by push_cast at hj ⊢; omega)
      rw [h1, h2, h3, h4]
      simp [inicializar_cuerpo, hne]

/-- Contents of slot `i` of a generated batch. -/
theorem inicializar_slot (rnd : Nat → Int) (s : Estado) (i : Int)
    (h0 : 0 ≤ i) (hi : i < NUM_TRANSACCIONES) :
    (inicializar_transacciones rnd s).transaccion_id i = i + 1 ∧
    (inicializar_transacciones rnd s).transaccion_tipo i = (rnd (2 * i.toNat)).tmod 3 ∧
    (inicializar_transacciones rnd s).transaccion_duracion_ms i
      = 100 + (rnd (2 * i.toNat + 1)).tmod 400 ∧
    (inicializar_transacciones rnd s).transaccion_resultado i = 0 := by
  have h := (inicializar_desde rnd (NUM_TRANSACCIONES - 0).toNat 0 s 0 i).1
    (by simp only [NUM_TRANSACCIONES] at hi ⊢; omega)
  simpa [inicializar_transacciones, forRango] using h

/-- The generation loop does not touch the history of stores. -/
theorem inicializar_escrituras (rnd : Nat → Int) :
    ∀ (n : Nat) (i₀ : Int) (p : Estado × Nat),
      (forDesde (inicializar_cuerpo rnd) n i₀ p).1.escrituras = p.1.escrituras := by
  intro n
  induction n with
  | zero => intro i₀ p; rfl
  | succ n ih =>
    intro i₀ p
    show (forDesde (inicializar_cuerpo rnd) n (i₀ + 1) (inicializar_cuerpo rnd i₀ p)).1.escrituras
      = p.1.escrituras
    rw [ih]
    rfl

/-- Every duration of `[100, 499]` is assigned by some non-negative value of
the random source. -/
theorem duracion_alcanzable (d : Int) (h1 : 100 ≤ d) (h2 : d ≤ 499) (s : Estado)
    (i : Int) (h0 : 0 ≤ i) (hi : i < NUM_TRANSACCIONES) :
    ∃ rnd : Nat → Int, (∀ c, 0 ≤ rnd c) ∧
      (inicializar_transacciones rnd s).transaccion_duracion_ms i = d := by
  refine ⟨fun _ => d - 100, fun _ => (by omega : 0 ≤ d - 100), ?_⟩
  rw [(inicializar_slot (fun _ => d - 100) s i h0 hi).2.2.1]
  have : (d - 100).tmod 400 = d - 100 := Int.tmod_eq_of_lt (by omega) (by omega)
  simp only [this]
  omega

/-! ## Worker lemmas -/

/-- One iteration of the worker loop leaves the three input arrays alone. -/
theorem cuerpo_campos (k i : Int) (s : Estado) :
    (procesar_cuerpo k i s).transaccion_id = s.transaccion_id ∧
    (procesar_cuerpo k i s).transaccion_tipo = s.transaccion_tipo ∧
    (procesar_cuerpo k i s).transaccion_duracion_ms = s.transaccion_duracion_ms := by
  unfold procesar_cuerpo
  split_ifs <;> exact ⟨rfl, rfl, rfl⟩

/-- Result array after one iteration of the worker loop. -/
theorem cuerpo_resultado (k i : Int) (s : Estado) (j : Int) :
    (procesar_cuerpo k i s).transaccion_resultado j
      = if j = i then
          valor_resultado (s.transaccion_tipo i) (s.transaccion_id i) (s.transaccion_resultado i)
        else s.transaccion_resultado j := by
  unfold procesar_cuerpo valor_resultado
  by_cases hj : j = i
  · subst hj
    rw [if_pos rfl]
    split_ifs <;>
      simp [anotar, simular_consulta_bd, simular_procesar_archivo, simular_calculo,
        escribir_resultado]
  · rw [if_neg hj]
    split_ifs <;>
      simp [anotar, simular_consulta_bd, simular_procesar_archivo, simular_calculo,
        escribir_resultado, hj]

/-- History of stores after one iteration of the worker loop. -/
theorem cuerpo_escrituras (k i : Int) (s : Estado) :
    (procesar_cuerpo k i s).escrituras
      = s.escrituras ++ (if tipo_valido s i then [(k, i)] else []) := by
  unfold procesar_cuerpo
  by_cases h0 : s.transaccion_tipo i = 0
  · rw [if_pos h0, if_pos (show tipo_valido s i from Or.inl h0)]
    rfl
  · by_cases h1 : s.transaccion_tipo i = 1
    · rw [if_neg h0, if_pos h1, if_pos (show tipo_valido s i from Or.inr (Or.inl h1))]
      rfl
    · by_cases h2 : s.transaccion_tipo i = 2
      · rw [if_neg h0, if_neg h1, if_pos h2,
          if_pos (show tipo_valido s i from Or.inr (Or.inr h2))]
        rfl
      · have hv : ¬ tipo_valido s i := by
          unfold tipo_valido
          tauto
        rw [if_neg h0, if_neg h1, if_neg h2, if_neg hv, List.append_nil]

/-- State after `n` iterations of the worker loop started at index `i₀`. -/
theorem bucle_hilo (k : Int) :
    ∀ (n : Nat) (i₀ : Int) (s : Estado),
      (forDesde (procesar_cuerpo k) n i₀ s).transaccion_id = s.transaccion_id ∧
      (forDesde (procesar_cuerpo k) n i₀ s).transaccion_tipo = s.transaccion_tipo ∧
      (forDesde (procesar_cuerpo k) n i₀ s).transaccion_duracion_ms
        = s.transaccion_duracion_ms ∧
      (∀ j, (forDesde (procesar_cuerpo k) n i₀ s).transaccion_resultado j
        = if i₀ ≤ j ∧ j < i₀ + n then
            valor_resultado (s.transaccion_tipo j) (s.transaccion_id j)
              (s.transaccion_resultado j)
          else s.transaccion_resultado j) ∧
      ∃ L : List (Int × Int),
        (forDesde (procesar_cuerpo k) n i₀ s).escrituras = s.escrituras ++ L ∧
        (∀ e ∈ L, e.1 = k ∧ i₀ ≤ e.2 ∧ e.2 < i₀ + n) ∧
        ∀ j, L.filter (fun e => decide (e.2 = j))
          = if tipo_valido s j ∧ i₀ ≤ j ∧ j < i₀ + n then [(k, j)] else [] := by
  intro n
  induction n with
  | zero =>
    intro i₀ s
    refine ⟨rfl, rfl, rfl, fun j => ?_, [], by simp [forDesde], by simp, fun j => ?_⟩
    · have : ¬ (i₀ ≤ j ∧ j < i₀ + ((0 : Nat) : Int)) := by push_cast; omega
      rw [if_neg this]; rfl
    · have : ¬ (tipo_valido s j ∧ i₀ ≤ j ∧ j < i₀ + ((0 : Nat) : Int)) := by push_cast; omega
      rw [if_neg this]; rfl
  | succ n ih =>
    intro i₀ s
    have hstep : forDesde (procesar_cuerpo k) (n + 1) i₀ s
        = forDesde (procesar_cuerpo k) n (i₀ + 1) (procesar_cuerpo k i₀ s) := rfl
    rw [hstep]
    obtain ⟨hid, htipo, hdur, hres, L, hL, hLin, hLf⟩ := ih (i₀ + 1) (procesar_cuerpo k i₀ s)
    obtain ⟨cid, ctipo, cdur⟩ := cuerpo_campos k i₀ s
    refine ⟨hid.trans cid, htipo.trans ctipo, hdur.trans cdur, fun j => ?_, ?_⟩
    · rw [hres j, cid, ctipo, cuerpo_resultado]
      by_cases hj : j = i₀
      · subst hj
        have h1 : ¬ (j + 1 ≤ j ∧ j < j + 1 + (n : Int)) := by omega
        have h2 : j ≤ j ∧ j < j + ((n + 1 : Nat) : Int) := by push_cast; omega
        rw [if_neg h1, if_pos h2, if_pos rfl]
      · rw [if_neg hj]
        by_cases hr : i₀ + 1 ≤ j ∧ j < i₀ + 1 + (n : Int)
        · have h2 : i₀ ≤ j ∧ j < i₀ + ((n + 1 : Nat) : Int) := by push_cast; omega
          rw [if_pos hr, if_pos h2]
        · have h2 : ¬ (i₀ ≤ j ∧ j < i₀ + ((n + 1 : Nat) : Int)) := by push_cast; omega
          rw [if_neg hr, if_neg h2]
    · refine ⟨(if tipo_valido s i₀ then [(k, i₀)] else []) ++ L, ?_, ?_, fun j => ?_⟩
      · rw [hL, cuerpo_escrituras, List.append_assoc]
      · intro e he
        rcases List.mem_append.mp he with h | h
        · by_cases hv : tipo_valido s i₀
          · rw [if_pos hv] at h
            have : e = (k, i₀) := by simpa using h
            subst this
            refine ⟨rfl, le_refl _, ?_⟩
            push_cast; omega
          · rw [if_neg hv] at h
            simp at h
        · obtain ⟨h1, h2, h3⟩ := hLin e h
          refine ⟨h1, by omega, by push_cast; omega⟩
      · have hv : tipo_valido (procesar_cuerpo k i₀ s) j ↔ tipo_valido s j := by
          unfold tipo_valido; rw [ctipo]
        rw [List.filter_append, hLf j]
        by_cases hj : j = i₀
        · subst hj
          have h1 : ¬ (tipo_valido (procesar_cuerpo k j s) j ∧
              j + 1 ≤ j ∧ j < j + 1 + (n : Int)) := by omega
          rw [if_neg h1, List.append_nil]
          by_cases hval : tipo_valido s j
          · have h2 : tipo_valido s j ∧ j ≤ j ∧ j < j + ((n + 1 : Nat) : Int) :=
              ⟨hval, le_refl _, by push_cast; omega⟩
            rw [if_pos hval, if_pos h2]
            simp
          · have h2 : ¬ (tipo_valido s j ∧ j ≤ j ∧ j < j + ((n + 1 : Nat) : Int)) :=
              fun h => hval h.1
            rw [if_neg hval, if_neg h2]
            rfl
        · have h0 : (if tipo_valido s i₀ then [(k, i₀)] else []).filter
              (fun e => decide (e.2 = j)) = [] := by
            by_cases hval : tipo_valido s i₀
            · rw [if_pos hval]
              simp [Ne.symm hj]
            · rw [if_neg hval]; rfl
          rw [h0, List.nil_append]
          by_cases hr : tipo_valido s j ∧ i₀ + 1 ≤ j ∧ j < i₀ + 1 + (n : Int)
          · have h2 : tipo_valido s j ∧ i₀ ≤ j ∧ j < i₀ + ((n + 1 : Nat) : Int) :=
              ⟨hr.1, by omega, by push_cast; omega⟩
            rw [if_pos (by rw [hv]; exact hr), if_pos h2]
          · have h2 : ¬ (tipo_valido s j ∧ i₀ ≤ j ∧ j < i₀ + ((n + 1 : Nat) : Int)) := by
              intro h
              apply hr
              refine ⟨h.1, by omega, ?_⟩
              have := h.2.2
              push_cast at this
              omega
            rw [if_neg (by rw [hv]; exact hr), if_neg h2]

/-- State after a worker has run to completion. -/
theorem hilo_efecto (k : Int) (s : Estado) :
    (procesar_transacciones k s).transaccion_id = s.transaccion_id ∧
    (procesar_transacciones k s).transaccion_tipo = s.transaccion_tipo ∧
    (procesar_transacciones k s).transaccion_duracion_ms = s.transaccion_duracion_ms ∧
    (∀ j, (procesar_transacciones k s).transaccion_resultado j
      = if en_rango k j then
          valor_resultado (s.transaccion_tipo j) (s.transaccion_id j)
            (s.transaccion_resultado j)
        else s.transaccion_resultado j) ∧
    ∃ L : List (Int × Int),
      (procesar_transacciones k s).escrituras = s.escrituras ++ L ∧
      (∀ e ∈ L, e.1 = k ∧ en_rango k e.2) ∧
      ∀ j, L.filter (fun e => decide (e.2 = j))
        = if tipo_valido s j ∧ en_rango k j then [(k, j)] else [] := by
  have hr : ∀ j : Int,
      (rango_inicio NUM_TRANSACCIONES NUM_HILOS k ≤ j ∧
        j < rango_inicio NUM_TRANSACCIONES NUM_HILOS k
          + ((rango_fin NUM_TRANSACCIONES NUM_HILOS k
              - rango_inicio NUM_TRANSACCIONES NUM_HILOS k).toNat : Int)) ↔ en_rango k j := by
    intro j
    unfold en_rango
    omega
  obtain ⟨hid, htipo, hdur, hres, L, hL, hLin, hLf⟩ :=
    bucle_hilo k (rango_fin NUM_TRANSACCIONES NUM_HILOS k
      - rango_inicio NUM_TRANSACCIONES NUM_HILOS k).toNat
      (rango_inicio NUM_TRANSACCIONES NUM_HILOS k) s
  refine ⟨hid, htipo, hdur, fun j => ?_, L, hL, fun e he => ?_, fun j => ?_⟩
  · have := hres j
    simp only [hr j] at this
    exact this
  · obtain ⟨h1, h2, h3⟩ := hLin e he
    exact ⟨h1, (hr e.2).mp ⟨h2, h3⟩⟩
  · have := hLf j
    simp only [hr j] at this
    exact this

/-! ## Result values -/

/-- A product `id_real * i` of the calculation loop stays in the `int` range. -/
theorem mul32_exacto {id_real i : Int} (hid : -21474 ≤ id_real ∧ id_real ≤ 21474)
    (h0 : 0 ≤ i) (hi : i < 100000) : mul32 id_real i = id_real * i := by
  have hup : id_real * i ≤ 21474 * 99999 :=
    le_trans (mul_le_mul_of_nonneg_right hid.2 h0) (by omega)
  have hlo : -21474 * 99999 ≤ id_real * i :=
    le_trans (by omega) (mul_le_mul_of_nonneg_right hid.1 h0)
  exact wrap32_eq (by omega) (by omega)

/-- The calculation loop as a sum: `n` iterations from index `i`. -/
theorem calculo_desde_suma (id_real : Int) (hid : -21474 ≤ id_real ∧ id_real ≤ 21474) :
    ∀ (n : Nat) (i : Int) (acc : ℚ), 0 ≤ i → i + n ≤ 100000 →
      forDesde (calculo_cuerpo id_real) n i acc
        = acc + Finset.sum (Finset.range n)
            (fun t => ((id_real * (i + (t : Int)) : Int) : ℚ) * (1 / 100000)) := by
  intro n
  induction n with
  | zero => intro i acc _ _; simp [forDesde]
  | succ n ih =>
    intro i acc h0 hn
    have hstep : forDesde (calculo_cuerpo id_real) (n + 1) i acc
        = forDesde (calculo_cuerpo id_real) n (i + 1) (calculo_cuerpo id_real i acc) := rfl
    rw [hstep, ih (i + 1) _ (by omega) (by push_cast at hn; omega), Finset.sum_range_succ']
    unfold calculo_cuerpo
    rw [mul32_exacto hid h0 (by push_cast at hn; omega)]
    have e : ∀ t : Nat, i + 1 + (t : Int) = i + ((t + 1 : Nat) : Int) := by
      intro t; push_cast; ring
    simp only [e]
    simp only [Nat.cast_zero, add_zero]
    ring

/-- Closed form of the sum of the calculation loop. -/
theorem suma_cerrada (id_real : Int) (n : Nat) :
    Finset.sum (Finset.range n) (fun t => ((id_real * (0 + (t : Int)) : Int) : ℚ) * (1 / 100000))
      = (id_real : ℚ) * ((n : ℚ) * ((n : ℚ) - 1) / 2) / 100000 := by
  induction n with
  | zero => simp
  | succ n ih =>
    rw [Finset.sum_range_succ, ih]
    push_cast
    ring

/-- Result of the calculation loop of lines 74-77. -/
theorem calculo_valor (id_real : Int) (hid : -21474 ≤ id_real ∧ id_real ≤ 21474) :
    forRango (calculo_cuerpo id_real) 0 100000 0
        = Finset.sum (Finset.range 100000)
            (fun j => ((id_real * (j : Int) : Int) : ℚ) * (1 / 100000)) ∧
    forRango (calculo_cuerpo id_real) 0 100000 0 = (id_real : ℚ) * (99999 / 2) := by
  have h := calculo_desde_suma id_real hid 100000 0 0 (le_refl _) (by norm_num)
  have hn : ((100000 : Int) - 0).toNat = 100000 := by decide
  have hf : forRango (calculo_cuerpo id_real) 0 100000 0
      = forDesde (calculo_cuerpo id_real) 100000 0 0 := by
    unfold forRango
    rw [hn]
  rw [hf, h]
  constructor
  · simp only [zero_add]
  · rw [suma_cerrada]
    norm_num
    ring

/-- The value the `switch` stores, by kind, when the id is in the range where
no product overflows. -/
theorem valor_por_tipo (id_real : Int) (previo : ℚ)
    (hid : -21474 ≤ id_real ∧ id_real ≤ 21474) :
    valor_resultado 0 id_real previo = (id_real : ℚ) * (157 / 50) ∧
    valor_resultado 1 id_real previo = (id_real : ℚ) * 100 ∧
    valor_resultado 2 id_real previo = (id_real : ℚ) * (99999 / 2) := by
  refine ⟨by simp [valor_resultado], ?_, ?_⟩
  · have : mul32 id_real 100 = id_real * 100 := mul32_exacto hid (by decide) (by decide)
    simp [valor_resultado, this]
  · simp [valor_resultado, (calculo_valor id_real hid).2]

/-- The stored value is not zero for a valid kind and an id of a batch. -/
theorem valor_no_cero (tipo id_real : Int) (previo : ℚ)
    (ht : tipo = 0 ∨ tipo = 1 ∨ tipo = 2) (h1 : 1 ≤ id_real) (h2 : id_real ≤ 20) :
    valor_resultado tipo id_real previo ≠ 0 := by
  obtain ⟨v0, v1, v2⟩ := valor_por_tipo id_real previo ⟨by omega, by omega⟩
  have hq : (id_real : ℚ) ≠ 0 := by
    have : id_real ≠ 0 := by omega
    exact_mod_cast this
  rcases ht with h | h | h <;> subst h
  · rw [v0]; exact mul_ne_zero hq (by norm_num)
  · rw [v1]; exact mul_ne_zero hq (by norm_num)
  · rw [v2]; exact mul_ne_zero hq (by norm_num)

/-- Storing twice in a slot leaves what storing once leaves. -/
theorem valor_idem (tipo id_real : Int) (previo : ℚ) :
    valor_resultado tipo id_real (valor_resultado tipo id_real previo)
      = valor_resultado tipo id_real previo := by
  unfold valor_resultado
  split_ifs <;> rfl

/-! ## Sequential runs of workers -/

/-- State after the workers of `orden` have run one after the other. -/
theorem ejecutar_efecto :
    ∀ (orden : List Int) (s : Estado),
      (ejecutar_hilos orden s).transaccion_id = s.transaccion_id ∧
      (ejecutar_hilos orden s).transaccion_tipo = s.transaccion_tipo ∧
      (ejecutar_hilos orden s).transaccion_duracion_ms = s.transaccion_duracion_ms ∧
      (∀ j, (ejecutar_hilos orden s).transaccion_resultado j
        = if ∃ k ∈ orden, en_rango k j then
            valor_resultado (s.transaccion_tipo j) (s.transaccion_id j)
              (s.transaccion_resultado j)
          else s.transaccion_resultado j) ∧
      (∀ j, (ejecutar_hilos orden s).escrituras.filter (fun e => decide (e.2 = j))
        = s.escrituras.filter (fun e => decide (e.2 = j))
          ++ (if tipo_valido s j then
                (orden.filter (fun k => decide (en_rango k j))).map (fun k => (k, j))
              else [])) := by
  intro orden
  induction orden with
  | nil =>
    intro s
    refine ⟨rfl, rfl, rfl, fun j => ?_, fun j => ?_⟩
    · simp [ejecutar_hilos]
    · simp [ejecutar_hilos]
  | cons k resto ih =>
    intro s
    have hstep : ejecutar_hilos (k :: resto) s
        = ejecutar_hilos resto (procesar_transacciones k s) := rfl
    rw [hstep]
    obtain ⟨hid, htipo, hdur, hres, hlog⟩ := ih (procesar_transacciones k s)
    obtain ⟨pid, ptipo, pdur, pres, L, pL, -, pLf⟩ := hilo_efecto k s
    refine ⟨hid.trans pid, htipo.trans ptipo, hdur.trans pdur, fun j => ?_, fun j => ?_⟩
    · rw [hres j, pid, ptipo, pres j]
      by_cases hk : en_rango k j
      · have hex : ∃ k' ∈ k :: resto, en_rango k' j := ⟨k, List.mem_cons_self _ _, hk⟩
        rw [if_pos hk, if_pos hex, valor_idem]
        split_ifs <;> rfl
      · rw [if_neg hk]
        by_cases hr : ∃ k' ∈ resto, en_rango k' j
        · have hex : ∃ k' ∈ k :: resto, en_rango k' j := by
            obtain ⟨k', hmem, hk'⟩ := hr
            exact ⟨k', List.mem_cons_of_mem _ hmem, hk'⟩
          rw [if_pos hr, if_pos hex]
        · have hex : ¬ ∃ k' ∈ k :: resto, en_rango k' j := by
            rintro ⟨k', hmem, hk'⟩
            rcases List.mem_cons.mp hmem with h | h
            · exact hk (h ▸ hk')
            · exact hr ⟨k', h, hk'⟩
          rw [if_neg hr, if_neg hex]
    · have hv : tipo_valido (procesar_transacciones k s) j ↔ tipo_valido s j := by
        unfold tipo_valido; rw [ptipo]
      rw [hlog j, pL, List.filter_append, pLf j, List.append_assoc]
      congr 1
      by_cases hval : tipo_valido s j
      · rw [if_pos (hv.mpr hval), if_pos hval]
        by_cases hk : en_rango k j
        · rw [if_pos ⟨hval, hk⟩]
          simp [List.filter_cons, hk]
        · rw [if_neg (fun h => hk h.2)]
          simp [List.filter_cons, hk]
      · rw [if_neg (fun h => hval (hv.mp h)), if_neg hval, if_neg (fun h => hval h.1)]
        rfl

/-- The worker ids are 1, 2, 3, 4. -/
theorem id_hilos_eq : id_hilos = [1, 2, 3, 4] := by decide

/-- Every index of the batch has an owner among the workers 1..4, and the
owner is the only worker of the list whose range contains the index. -/
theorem propietario (i : Int) (h0 : 0 ≤ i) (hi : i < NUM_TRANSACCIONES) :
    ∃ k : Int, 1 ≤ k ∧ k ≤ NUM_HILOS ∧ en_rango k i ∧
      ([1, 2, 3, 4] : List Int).filter (fun k => decide (en_rango k i)) = [k] := by
  simp only [NUM_TRANSACCIONES] at hi
  refine ⟨i / 5 + 1, ?_⟩
  interval_cases i <;> decide

/-! ## Orchestration lemmas -/

/-- All launches succeed exactly when the four calls return 0. -/
theorem todos_ok_iff (pthread_create : Int → Int) :
    (∀ i, 0 ≤ i → i < NUM_HILOS → pthread_create i = 0) ↔
      pthread_create 0 = 0 ∧ pthread_create 1 = 0 ∧ pthread_create 2 = 0 ∧
        pthread_create 3 = 0 := by
  constructor
  · intro h
    exact ⟨h 0 (by decide) (by decide), h 1 (by decide) (by decide),
      h 2 (by decide) (by decide), h 3 (by decide) (by decide)⟩
  · rintro ⟨h0, h1, h2, h3⟩ i hi0 hi
    simp only [NUM_HILOS] at hi
    interval_cases i <;> assumption

/-! ## Claims on the range computation -/

/-- C1: for every `N ≥ M > 0` the ranges `[inicio_k, fin_k)` of the workers
`k = 1..M` lie inside `[0, N)`, are pairwise disjoint, and every index of
`[0, N)` lies in the range of exactly one worker; for `N = 20`, `M = 4` the
ranges are `[0,5)`, `[5,10)`, `[10,15)`, `[15,20)`. -/
theorem C1_rangos_particion (N M : Int) (hM : 0 < M) (hMN : M ≤ N) :
    (∀ k, 1 ≤ k → k ≤ M →
      0 ≤ rango_inicio N M k ∧ rango_inicio N M k ≤ rango_fin N M k ∧ rango_fin N M k ≤ N) ∧
    (∀ k₁ k₂, 1 ≤ k₁ → k₁ ≤ M → 1 ≤ k₂ → k₂ ≤ M → k₁ ≠ k₂ →
      ∀ i, ¬ ((rango_inicio N M k₁ ≤ i ∧ i < rango_fin N M k₁) ∧
              (rango_inicio N M k₂ ≤ i ∧ i < rango_fin N M k₂))) ∧
    (∀ i, 0 ≤ i → i < N →
      ∃! k, 1 ≤ k ∧ k ≤ M ∧ rango_inicio N M k ≤ i ∧ i < rango_fin N M k) ∧
    [1, 2, 3, 4].map (fun k => (rango_inicio 20 4 k, rango_fin 20 4 k))
      = [(0, 5), (5, 10), (10, 15), (15, 20)] := by
  have hN : 0 ≤ N := by omega
  refine ⟨fun k h1 hk => rango_dentro hN hM h1 hk, ?_, ?_, by decide⟩
  · intro k₁ k₂ _ h1 _ h2 hne i hi
    exact hne (rango_unico hN hM h1 h2 hi.1 hi.2)
  · intro i h0 hi
    obtain ⟨k, hk1, hkM, hr⟩ := rango_cubre hM (base_pos hM hMN) hN h0 hi
    refine ⟨k, ⟨hk1, hkM, hr.1, hr.2⟩, ?_⟩
    intro k' hk'
    exact rango_unico hN hM hk'.2.1 hkM ⟨hk'.2.2.1, hk'.2.2.2⟩ hr

/-- Instance of C1 at the constants of the program, `N = 20` and `M = 4`. -/
theorem C1_rangos_particion_witness :
    (0 : Int) < 4 ∧ (4 : Int) ≤ 20 ∧
    ∀ i : Int, 0 ≤ i → i < 20 →
      ∃! k, 1 ≤ k ∧ k ≤ 4 ∧ rango_inicio 20 4 k ≤ i ∧ i < rango_fin 20 4 k :=
  ⟨by decide, by decide, (C1_rangos_particion 20 4 (by decide) (by decide)).2.2.1⟩

/-- C2: for every `N ≥ M > 0` and `base = N / M`, worker `k` with
`1 ≤ k < M` has the range `[(k-1)*base, k*base)` of exactly `base` indices and
worker `M` has the range `[(M-1)*base, N)` of exactly `base + N mod M` indices;
for `N = 22`, `M = 4` the ranges are `[0,5)`, `[5,10)`, `[10,15)`, `[15,22)`. -/
theorem C2_rangos_forma (N M : Int) (hM : 0 < M) (hMN : M ≤ N) :
    (∀ k, 1 ≤ k → k < M →
      rango_inicio N M k = (k - 1) * (N / M) ∧ rango_fin N M k = k * (N / M) ∧
      rango_fin N M k - rango_inicio N M k = N / M) ∧
    (rango_inicio N M M = (M - 1) * (N / M) ∧ rango_fin N M M = N ∧
      rango_fin N M M - rango_inicio N M M = N / M + N % M) ∧
    [1, 2, 3, 4].map (fun k => (rango_inicio 22 4 k, rango_fin 22 4 k))
      = [(0, 5), (5, 10), (10, 15), (15, 22)] := by
  have hN : 0 ≤ N := by omega
  refine ⟨?_, ?_, by decide⟩
  · intro k _ hk
    obtain ⟨hi, hf⟩ := rango_no_ultimo (k := k) hN hM (by omega)
    refine ⟨hi, hf, ?_⟩
    rw [hi, hf]; ring
  · obtain ⟨hi, hf⟩ := rango_ultimo hN hM
    refine ⟨hi, hf, ?_⟩
    rw [hi, hf]
    have h := Int.ediv_add_emod N M
    linarith

/-- Instance of C2 at `N = 22`, `M = 4`: the last worker receives `5 + 2`. -/
theorem C2_rangos_forma_witness :
    (0 : Int) < 4 ∧ (4 : Int) ≤ 22 ∧
    rango_fin 22 4 4 - rango_inicio 22 4 4 = 22 / 4 + 22 % 4 :=
  ⟨by decide, by decide, (C2_rangos_forma 22 4 (by decide) (by decide)).2.1.2.2⟩

/-- C8: for every `0 ≤ N < M`, every worker `k` of `1..M` receives a range
with `0 ≤ inicio_k ≤ fin_k ≤ N`, at least one worker receives an empty range,
and every index of `[0, N)` lies in the range of exactly one worker. -/
theorem C8_mas_hilos_que_transacciones (N M : Int) (hN : 0 ≤ N) (hNM : N < M) :
    (∀ k, 1 ≤ k → k ≤ M →
      0 ≤ rango_inicio N M k ∧ rango_inicio N M k ≤ rango_fin N M k ∧ rango_fin N M k ≤ N) ∧
    (∃ k, 1 ≤ k ∧ k ≤ M ∧ rango_inicio N M k = rango_fin N M k) ∧
    (∀ i, 0 ≤ i → i < N →
      ∃! k, 1 ≤ k ∧ k ≤ M ∧ rango_inicio N M k ≤ i ∧ i < rango_fin N M k) := by
  have hM : 0 < M := by omega
  have hb : N / M = 0 := Int.ediv_eq_zero_of_lt hN hNM
  have hult := rango_ultimo hN hM
  have hno : ∀ k, k ≠ M → rango_inicio N M k = 0 ∧ rango_fin N M k = 0 := by
    intro k hk
    obtain ⟨hi, hf⟩ := rango_no_ultimo hN hM hk
    rw [hi, hf, hb]; simp
  rw [hb] at hult
  simp only [mul_zero] at hult
  refine ⟨fun k h1 hk => rango_dentro hN hM h1 hk, ?_, ?_⟩
  · by_cases h1 : M = 1
    · refine ⟨M, by omega, le_refl _, ?_⟩
      rw [hult.1, hult.2]; omega
    · obtain ⟨hi, hf⟩ := hno 1 (fun h => h1 h.symm)
      exact ⟨1, le_refl _, by omega, by rw [hi, hf]⟩
  · intro i h0 hi
    refine ⟨M, ⟨by omega, le_refl _, by rw [hult.1]; exact h0, by rw [hult.2]; exact hi⟩, ?_⟩
    intro k hk
    by_contra hne
    obtain ⟨hi', hf'⟩ := hno k hne
    have := hk.2.2.2
    rw [hf'] at this
    omega

/-- Instance of C8 with 3 transactions and 4 workers. -/
theorem C8_mas_hilos_que_transacciones_witness :
    (0 : Int) ≤ 3 ∧ (3 : Int) < 4 ∧
    ∃ k : Int, 1 ≤ k ∧ k ≤ 4 ∧ rango_inicio 3 4 k = rango_fin 3 4 k :=
  ⟨by decide, by decide, (C8_mas_hilos_que_transacciones 3 4 (by decide) (by decide)).2.1⟩

/-! ## Claims on batch generation -/

/-- C5: for every sequence of non-negative values of the random source and
every index `i` of `[0, N)`, after `inicializar_transacciones` the slot has
`transaccion_id[i] = i + 1`, `transaccion_tipo[i]` in `{0, 1, 2}`,
`100 ≤ transaccion_duracion_ms[i] ≤ 500` and `transaccion_resultado[i] = 0.0`. -/
theorem C5_inicializar (rnd : Nat → Int) (hrnd : ∀ c, 0 ≤ rnd c) (s : Estado)
    (i : Int) (h0 : 0 ≤ i) (hi : i < NUM_TRANSACCIONES) :
    (inicializar_transacciones rnd s).transaccion_id i = i + 1 ∧
    ((inicializar_transacciones rnd s).transaccion_tipo i = 0 ∨
      (inicializar_transacciones rnd s).transaccion_tipo i = 1 ∨
      (inicializar_transacciones rnd s).transaccion_tipo i = 2) ∧
    100 ≤ (inicializar_transacciones rnd s).transaccion_duracion_ms i ∧
    (inicializar_transacciones rnd s).transaccion_duracion_ms i ≤ 500 ∧
    (inicializar_transacciones rnd s).transaccion_resultado i = 0 := by
  obtain ⟨h1, h2, h3, h4⟩ := inicializar_slot rnd s i h0 hi
  have ht := tmod_rango (hrnd (2 * i.toNat)) (by decide : (0 : Int) < 3)
  have hd := tmod_rango (hrnd (2 * i.toNat + 1)) (by decide : (0 : Int) < 400)
  rw [h1, h2, h3, h4]
  refine ⟨rfl, by omega, by omega, by omega, rfl⟩

/-- Instance of C5: slot 6 of the batch generated from the constant random
sequence 7 holds id 7, a kind in `{0, 1, 2}` and a duration in `[100, 500]`. -/
theorem C5_inicializar_witness :
    (∀ c : Nat, (0 : Int) ≤ (fun _ => 7) c) ∧ (0 : Int) ≤ 6 ∧ (6 : Int) < NUM_TRANSACCIONES ∧
    (inicializar_transacciones (fun _ => 7) estado_inicial).transaccion_id 6 = 6 + 1 ∧
    ((inicializar_transacciones (fun _ => 7) estado_inicial).transaccion_tipo 6 = 0 ∨
      (inicializar_transacciones (fun _ => 7) estado_inicial).transaccion_tipo 6 = 1 ∨
      (inicializar_transacciones (fun _ => 7) estado_inicial).transaccion_tipo 6 = 2) ∧
    100 ≤ (inicializar_transacciones (fun _ => 7) estado_inicial).transaccion_duracion_ms 6 ∧
    (inicializar_transacciones (fun _ => 7) estado_inicial).transaccion_duracion_ms 6 ≤ 500 ∧
    (inicializar_transacciones (fun _ => 7) estado_inicial).transaccion_resultado 6 = 0 :=
  ⟨fun _ => (by decide : (0 : Int) ≤ 7), by decide, by decide,
    C5_inicializar (fun _ => 7) (fun _ => (by decide : (0 : Int) ≤ 7)) estado_inicial 6 (by decide) (by decide)⟩

/-- C6 (fails on the code): no value of the random source makes
`inicializar_transacciones` assign the duration 500 to a slot of the batch;
line 151 computes `100 + rand() % 400`, which is at most 499. -/
theorem C6_duracion_500_inalcanzable :
    ¬ ∃ (rnd : Nat → Int) (s : Estado) (i : Int), 0 ≤ i ∧ i < NUM_TRANSACCIONES ∧
      (inicializar_transacciones rnd s).transaccion_duracion_ms i = 500 := by
  rintro ⟨rnd, s, i, h0, hi, h⟩
  rw [(inicializar_slot rnd s i h0 hi).2.2.1] at h
  have := Int.tmod_lt_of_pos (rnd (2 * i.toNat + 1)) (by decide : (0 : Int) < 400)
  omega

/-- C10: on a generated batch (random values non-negative) the `int` products
of the simulated-work routines stay in range: the `usleep` argument
`transaccion_duracion_ms[i] * 1000` lies in `[100000, 499000]`, below 1,000,000;
`id * 100 ≤ 2000`; every product `id * j` with `0 ≤ j < 100000` is at most
1,999,980, below `2^31`; and each wrapped product equals the mathematical one. -/
theorem C10_sin_desbordamiento (rnd : Nat → Int) (hrnd : ∀ c, 0 ≤ rnd c) (s : Estado)
    (i : Int) (h0 : 0 ≤ i) (hi : i < NUM_TRANSACCIONES) :
    (1 ≤ (inicializar_transacciones rnd s).transaccion_id i ∧
      (inicializar_transacciones rnd s).transaccion_id i ≤ 20) ∧
    (100000 ≤ (inicializar_transacciones rnd s).transaccion_duracion_ms i * 1000 ∧
      (inicializar_transacciones rnd s).transaccion_duracion_ms i * 1000 ≤ 499000 ∧
      (inicializar_transacciones rnd s).transaccion_duracion_ms i * 1000 < 1000000 ∧
      usleep_arg (inicializar_transacciones rnd s) i
        = (inicializar_transacciones rnd s).transaccion_duracion_ms i * 1000) ∧
    ((inicializar_transacciones rnd s).transaccion_id i * 100 ≤ 2000 ∧
      mul32 ((inicializar_transacciones rnd s).transaccion_id i) 100
        = (inicializar_transacciones rnd s).transaccion_id i * 100) ∧
    (∀ j : Int, 0 ≤ j → j < 100000 →
      (inicializar_transacciones rnd s).transaccion_id i * j ≤ 1999980 ∧
      (inicializar_transacciones rnd s).transaccion_id i * j < 2 ^ 31 ∧
      mul32 ((inicializar_transacciones rnd s).transaccion_id i) j
        = (inicializar_transacciones rnd s).transaccion_id i * j) := by
  obtain ⟨h1, -, h3, -⟩ := inicializar_slot rnd s i h0 hi
  have hd := tmod_rango (hrnd (2 * i.toNat + 1)) (by decide : (0 : Int) < 400)
  simp only [NUM_TRANSACCIONES] at hi
  unfold usleep_arg mul32
  rw [h1, h3]
  refine ⟨by omega, ⟨by omega, by omega, by omega, wrap32_eq (by omega) (by omega)⟩,
    ⟨by omega, wrap32_eq (by omega) (by omega)⟩, ?_⟩
  intro j hj0 hj
  have hb1 : 0 ≤ (i + 1) * j := mul_nonneg (by omega) hj0
  have hb2 : (i + 1) * j ≤ 20 * 99999 :=
    mul_le_mul (by omega) (by omega) hj0 (by decide)
  refine ⟨by omega, by norm_num; omega, wrap32_eq (by omega) (by omega)⟩

/-- Instance of C10: slot 19 (id 20) of the batch generated from the constant
random sequence 399, the largest duration and the largest id. -/
theorem C10_sin_desbordamiento_witness :
    (∀ c : Nat, (0 : Int) ≤ (fun _ => 399) c) ∧ (0 : Int) ≤ 19 ∧ (19 : Int) < NUM_TRANSACCIONES ∧
    usleep_arg (inicializar_transacciones (fun _ => 399) estado_inicial) 19
      = (inicializar_transacciones (fun _ => 399) estado_inicial).transaccion_duracion_ms 19
          * 1000 :=
  ⟨fun _ => (by decide : (0 : Int) ≤ 399), by decide, by decide,
    (C10_sin_desbordamiento (fun _ => 399) (fun _ => (by decide : (0 : Int) ≤ 399)) estado_inicial 19
      (by decide) (by decide)).2.1.2.2.2⟩

/-! ## Claims on the workers -/

/-- C3: from a batch produced by `inicializar_transacciones` (random values
non-negative), after the workers `1..NUM_HILOS` have each run to completion in
any order, every slot `transaccion_resultado[i]` with
`0 ≤ i < NUM_TRANSACCIONES` differs from 0, and the slot has exactly one
writer among the workers: there is one worker `k` of `1..NUM_HILOS`, the one
whose range contains `i`, such that the slot holds 0 in the batch and at the
end holds what the run of `k` stores there, while the run of any other worker
of `1..NUM_HILOS`, on any state whatever, leaves the array cell
`transaccion_resultado[i]` as it was. -/
theorem C3_todas_procesadas (rnd : Nat → Int) (hrnd : ∀ c, 0 ≤ rnd c) (s₀ : Estado)
    (orden : List Int) (horden : List.Perm orden id_hilos)
    (i : Int) (h0 : 0 ≤ i) (hi : i < NUM_TRANSACCIONES) :
    (ejecutar_hilos orden (inicializar_transacciones rnd s₀)).transaccion_resultado i ≠ 0 ∧
    ∃ k, 1 ≤ k ∧ k ≤ NUM_HILOS ∧
      (rango_inicio NUM_TRANSACCIONES NUM_HILOS k ≤ i ∧
        i < rango_fin NUM_TRANSACCIONES NUM_HILOS k) ∧
      (inicializar_transacciones rnd s₀).transaccion_resultado i = 0 ∧
      (procesar_transacciones k (inicializar_transacciones rnd s₀)).transaccion_resultado i
        ≠ 0 ∧
      (ejecutar_hilos orden (inicializar_transacciones rnd s₀)).transaccion_resultado i
        = (procesar_transacciones k
            (inicializar_transacciones rnd s₀)).transaccion_resultado i ∧
      (∀ k', 1 ≤ k' → k' ≤ NUM_HILOS → k' ≠ k → ∀ s : Estado,
        (procesar_transacciones k' s).transaccion_resultado i = s.transaccion_resultado i) ∧
      (∀ k', 1 ≤ k' → k' ≤ NUM_HILOS → k' ≠ k →
        ¬ (rango_inicio NUM_TRANSACCIONES NUM_HILOS k' ≤ i ∧
            i < rango_fin NUM_TRANSACCIONES NUM_HILOS k')) := by
  obtain ⟨sid, stipo, -, sres⟩ := inicializar_slot rnd s₀ i h0 hi
  have ht := tmod_rango (hrnd (2 * i.toNat)) (by decide : (0 : Int) < 3)
  have hval : tipo_valido (inicializar_transacciones rnd s₀) i := by
    unfold tipo_valido
    rw [stipo]
    omega
  obtain ⟨-, -, -, hres, -⟩ := ejecutar_efecto orden (inicializar_transacciones rnd s₀)
  obtain ⟨k, hk1, hk4, hkr, hkf⟩ := propietario i h0 hi
  obtain ⟨-, -, -, kres, -⟩ := hilo_efecto k (inicializar_transacciones rnd s₀)
  rw [id_hilos_eq] at horden
  have hmem : k ∈ orden := by
    have h1 : k ∈ ([1, 2, 3, 4] : List Int).filter (fun k => decide (en_rango k i)) := by
      rw [hkf]; exact List.mem_singleton_self k
    exact (List.Perm.mem_iff horden).mpr (List.mem_filter.mp h1).1
  have hotro : ∀ k', 1 ≤ k' → k' ≤ NUM_HILOS → k' ≠ k → ¬ en_rango k' i := by
    intro k' _ h4 hne hr'
    exact hne (rango_unico (by decide : (0 : Int) ≤ NUM_TRANSACCIONES)
      (by decide : (0 : Int) < NUM_HILOS) h4 hk4 hr' hkr)
  have hno : valor_resultado ((inicializar_transacciones rnd s₀).transaccion_tipo i)
      ((inicializar_transacciones rnd s₀).transaccion_id i)
      ((inicializar_transacciones rnd s₀).transaccion_resultado i) ≠ 0 := by
    rw [sid]
    simp only [NUM_TRANSACCIONES] at hi
    exact valor_no_cero _ _ _ hval (by omega) (by omega)
  refine ⟨?_, k, hk1, hk4, hkr, sres, ?_, ?_, ?_, hotro⟩
  · rw [hres i, if_pos ⟨k, hmem, hkr⟩]
    exact hno
  · rw [kres i, if_pos hkr]
    exact hno
  · rw [hres i, if_pos ⟨k, hmem, hkr⟩, kres i, if_pos hkr]
  · intro k' h1 h4 hne s
    obtain ⟨-, -, -, ores, -⟩ := hilo_efecto k' s
    rw [ores i, if_neg (hotro k' h1 h4 hne)]

/-- Instance of C3: the workers run in the order 3, 1, 4, 2 on the batch
generated from the constant random sequence 7; slot 6. -/
theorem C3_todas_procesadas_witness :
    (∀ c : Nat, (0 : Int) ≤ (fun _ => 7) c) ∧
    List.Perm [3, 1, 4, 2] id_hilos ∧ (0 : Int) ≤ 6 ∧ (6 : Int) < NUM_TRANSACCIONES ∧
    (ejecutar_hilos [3, 1, 4, 2]
      (inicializar_transacciones (fun _ => 7) estado_inicial)).transaccion_resultado 6 ≠ 0 :=
  ⟨fun _ => (by decide : (0 : Int) ≤ 7), by decide, by decide, by decide,
    (C3_todas_procesadas (fun _ => 7) (fun _ => (by decide : (0 : Int) ≤ 7)) estado_inicial
      [3, 1, 4, 2] (by decide) 6 (by decide) (by decide)).1⟩

/-- C4: the result worker `k` writes for the transaction of a slot `i` of its
range is a function of the kind and the id of the slot only, with the
`double` operations taken exactly: `id * 3.14` for kind 0, `id * 100` for
kind 1, and for kind 2 the sum over `j` in `[0, 100000)` of
`(id * j) * 0.00001`, which is `id * 49999.5`; for id 7 these are 21.98, 700
and 349996.5. The id is taken in `[-21474, 21474]`, where no `int` product of
the routines overflows; this contains the ids `1..20` of every batch. -/
theorem C4_resultado_por_tipo (k i : Int) (s : Estado) (hr : en_rango k i)
    (hid : -21474 ≤ s.transaccion_id i ∧ s.transaccion_id i ≤ 21474) :
    (s.transaccion_tipo i = 0 →
      (procesar_transacciones k s).transaccion_resultado i
        = (s.transaccion_id i : ℚ) * 3.14) ∧
    (s.transaccion_tipo i = 1 →
      (procesar_transacciones k s).transaccion_resultado i
        = (s.transaccion_id i : ℚ) * 100) ∧
    (s.transaccion_tipo i = 2 →
      (procesar_transacciones k s).transaccion_resultado i
        = Finset.sum (Finset.range 100000)
            (fun j => ((s.transaccion_id i * (j : Int) : Int) : ℚ) * 0.00001) ∧
      (procesar_transacciones k s).transaccion_resultado i
        = (s.transaccion_id i : ℚ) * 49999.5) ∧
    (∀ (k' : Int) (s' : Estado), en_rango k' i → tipo_valido s i →
      s'.transaccion_tipo i = s.transaccion_tipo i →
      s'.transaccion_id i = s.transaccion_id i →
      (procesar_transacciones k' s').transaccion_resultado i
        = (procesar_transacciones k s).transaccion_resultado i) ∧
    (s.transaccion_id i = 7 →
      (s.transaccion_tipo i = 0 →
        (procesar_transacciones k s).transaccion_resultado i = 21.98) ∧
      (s.transaccion_tipo i = 1 →
        (procesar_transacciones k s).transaccion_resultado i = 700) ∧
      (s.transaccion_tipo i = 2 →
        (procesar_transacciones k s).transaccion_resultado i = 349996.5)) := by
  obtain ⟨-, -, -, hres, -⟩ := hilo_efecto k s
  obtain ⟨v0, v1, v2⟩ := valor_por_tipo (s.transaccion_id i) (s.transaccion_resultado i) hid
  have hsum := (calculo_valor (s.transaccion_id i) hid).1
  rw [hres i, if_pos hr]
  refine ⟨fun h => ?_, fun h => ?_, fun h => ⟨?_, ?_⟩, ?_, fun h7 => ⟨fun h => ?_, fun h => ?_, fun h => ?_⟩⟩
  · rw [h, v0]; norm_num
  · rw [h, v1]
  · rw [h]
    have : valor_resultado 2 (s.transaccion_id i) (s.transaccion_resultado i)
        = forRango (calculo_cuerpo (s.transaccion_id i)) 0 100000 0 := by
      simp [valor_resultado]
    rw [this, hsum]
    norm_num
  · rw [h, v2]; norm_num
  · intro k' s' hr' hval ht hi'
    obtain ⟨-, -, -, hres', -⟩ := hilo_efecto k' s'
    rw [hres' i, if_pos hr', ht, hi']
    unfold tipo_valido at hval
    unfold valor_resultado
    rcases hval with h | h | h <;> rw [h] <;> simp
  · rw [h, v0, h7]; norm_num
  · rw [h, v1, h7]; norm_num
  · rw [h, v2, h7]; norm_num

/-- Instance of C4: worker 2 on a batch whose slot 6 holds id 7 and kind 2. -/
theorem C4_resultado_por_tipo_witness :
    en_rango 2 6 ∧
    (-21474 ≤ (inicializar_transacciones (fun _ => 2) estado_inicial).transaccion_id 6 ∧
      (inicializar_transacciones (fun _ => 2) estado_inicial).transaccion_id 6 ≤ 21474) ∧
    (inicializar_transacciones (fun _ => 2) estado_inicial).transaccion_id 6 = 7 ∧
    (inicializar_transacciones (fun _ => 2) estado_inicial).transaccion_tipo 6 = 2 ∧
    (procesar_transacciones 2
      (inicializar_transacciones (fun _ => 2) estado_inicial)).transaccion_resultado 6
        = 349996.5 :=
  ⟨by decide, by decide, by decide, by decide,
    ((C4_resultado_por_tipo 2 6 (inicializar_transacciones (fun _ => 2) estado_inicial)
      (by decide) (by decide)).2.2.2.2 (by decide)).2.2 (by decide)⟩

/-- C7: running `procesar_transacciones` for any worker `k` on any state
leaves `transaccion_id`, `transaccion_tipo` and `transaccion_duracion_ms`
unchanged at every index, leaves `transaccion_resultado[j]` unchanged for
every `j` outside `[inicio_k, fin_k)`, and every store it makes is made by `k`
into a slot of `[inicio_k, fin_k)`. -/
theorem C7_marco_hilo (k : Int) (s : Estado) :
    (∀ j, (procesar_transacciones k s).transaccion_id j = s.transaccion_id j) ∧
    (∀ j, (procesar_transacciones k s).transaccion_tipo j = s.transaccion_tipo j) ∧
    (∀ j, (procesar_transacciones k s).transaccion_duracion_ms j
      = s.transaccion_duracion_ms j) ∧
    (∀ j, ¬ (rango_inicio NUM_TRANSACCIONES NUM_HILOS k ≤ j ∧
          j < rango_fin NUM_TRANSACCIONES NUM_HILOS k) →
      (procesar_transacciones k s).transaccion_resultado j = s.transaccion_resultado j) ∧
    ∃ L : List (Int × Int),
      (procesar_transacciones k s).escrituras = s.escrituras ++ L ∧
      ∀ e ∈ L, e.1 = k ∧ rango_inicio NUM_TRANSACCIONES NUM_HILOS k ≤ e.2 ∧
        e.2 < rango_fin NUM_TRANSACCIONES NUM_HILOS k := by
  obtain ⟨hid, htipo, hdur, hres, L, hL, hLin, -⟩ := hilo_efecto k s
  refine ⟨fun j => by rw [hid], fun j => by rw [htipo], fun j => by rw [hdur],
    fun j hj => ?_, L, hL, fun e he => ?_⟩
  · rw [hres j, if_neg (show ¬ en_rango k j from hj)]
  · exact hLin e he

/-! ## Claim on the orchestration -/

/-- C9: with `pthread_create i` the code returned by the `i`-th launch, `main`
returns 0 if and only if all `NUM_HILOS` launches succeed, and then joins the
workers and prints the summary; it returns 1 if any launch fails, and then
its steps are the launches up to the first failing one followed by `perror`:
no launch after the failure, no second attempt, no join and no summary. -/
theorem C9_main_codigo_salida (pthread_create : Int → Int) :
    ((main pthread_create).1 = 0 ↔
      ∀ i, 0 ≤ i → i < NUM_HILOS → pthread_create i = 0) ∧
    ((∀ i, 0 ≤ i → i < NUM_HILOS → pthread_create i = 0) →
      (main pthread_create).2
        = [Evento.crear 0, Evento.crear 1, Evento.crear 2, Evento.crear 3,
           Evento.join 0, Evento.join 1, Evento.join 2, Evento.join 3, Evento.resumen]) ∧
    ((∃ i, 0 ≤ i ∧ i < NUM_HILOS ∧ pthread_create i ≠ 0) → (main pthread_create).1 = 1) ∧
    (∀ j, 0 ≤ j → j < NUM_HILOS → pthread_create j ≠ 0 →
      (∀ i, 0 ≤ i → i < j → pthread_create i = 0) →
      (main pthread_create).2
          = (List.range (j.toNat + 1)).map (fun i : Nat => Evento.crear (i : Int))
            ++ [Evento.perror] ∧
      Evento.resumen ∉ (main pthread_create).2 ∧
      (∀ i, j < i → Evento.crear i ∉ (main pthread_create).2) ∧
      (main pthread_create).2.count (Evento.crear j) = 1) := by
  have hn : NUM_HILOS.toNat = 4 := by decide
  refine ⟨?_, ?_, ?_, ?_⟩
  · rw [todos_ok_iff]
    unfold main
    rw [hn]
    by_cases h0 : pthread_create 0 = 0 <;> by_cases h1 : pthread_create 1 = 0 <;>
      by_cases h2 : pthread_create 2 = 0 <;> by_cases h3 : pthread_create 3 = 0 <;>
      simp [lanzar_hilos, h0, h1, h2, h3]
  · intro h
    obtain ⟨h0, h1, h2, h3⟩ := (todos_ok_iff pthread_create).mp h
    unfold main
    rw [hn]
    simp [lanzar_hilos, h0, h1, h2, h3, esperar_hilos, forRango, forDesde, NUM_HILOS]
  · rintro ⟨i, hi0, hi, hne⟩
    have hnot : ¬ (pthread_create 0 = 0 ∧ pthread_create 1 = 0 ∧ pthread_create 2 = 0 ∧
        pthread_create 3 = 0) := by
      intro h
      exact hne ((todos_ok_iff pthread_create).mpr h i hi0 hi)
    unfold main
    rw [hn]
    by_cases h0 : pthread_create 0 = 0 <;> by_cases h1 : pthread_create 1 = 0 <;>
      by_cases h2 : pthread_create 2 = 0 <;> by_cases h3 : pthread_create 3 = 0 <;>
      first
        | (exfalso; exact hnot ⟨h0, h1, h2, h3⟩)
        | simp [lanzar_hilos, h0, h1, h2, h3]
  · intro j hj0 hj hne hprev
    simp only [NUM_HILOS] at hj
    have hmain : (main pthread_create).2
        = (List.range (j.toNat + 1)).map (fun i : Nat => Evento.crear (i : Int))
          ++ [Evento.perror] := by
      unfold main
      rw [hn]
      interval_cases j
      · simp [lanzar_hilos, hne, List.range_succ]
      · have h0 := hprev 0 (by decide) (by decide)
        simp [lanzar_hilos, hne, h0, List.range_succ]
      · have h0 := hprev 0 (by decide) (by decide)
        have h1 := hprev 1 (by decide) (by decide)
        simp [lanzar_hilos, hne, h0, h1, List.range_succ]
      · have h0 := hprev 0 (by decide) (by decide)
        have h1 := hprev 1 (by decide) (by decide)
        have h2 := hprev 2 (by decide) (by decide)
        simp [lanzar_hilos, hne, h0, h1, h2, List.range_succ]
    rw [hmain]
    refine ⟨rfl, ?_, ?_, ?_⟩
    · simp
    · intro i hji
      simp only [List.mem_append, List.mem_map, List.mem_range, List.mem_singleton, not_or]
      refine ⟨?_, by simp⟩
      rintro ⟨a, ha, hEq⟩
      have : (a : Int) = i := by injection hEq
      omega
    · interval_cases j <;> decide

end ProyectoGF
